import Mathlib

/-!
# Verification of the flashcard app's scheduling / performance engine

Shallow embedding of the TypeScript sources of
`professional-mle-flashcards` (files `src/utils/performance.ts`,
`src/App.tsx`, and the quiz components' `getCorrectOptionIndex`).

Modelling conventions:
* JS `number` counters and list indices are `Nat`; the answer-index
  sentinel `-1` forces `Int` where it appears.
* A JS `Date` is modelled by its millisecond timestamp (a `Nat`); the
  ambient clock `new Date()` becomes an explicit argument `t`.
* `Math.random()` draws are modelled by explicit `Nat` arguments / streams:
  `Math.floor(Math.random() * n)` is `g % n` for an arbitrary `g : Nat`
  (every residue in `[0, n)` is reachable and no other value is), and a
  float compared against the thresholds `0.5` / `0.8` is classified by
  `r % 10 < 5` / `r % 10 < 8`.
* A JS `Map` with string keys is an association list in insertion order;
  `Map.set` updates an existing key in place or appends, `Map.get`
  returns the first (unique) binding.
* `T | null` fields are `Option`.
-/

/-- `Question` record from `types.ts`. -/
structure Question where
  id : String
  question : String
  options : List String
  answer : String
  explanation : String
deriving DecidableEq, Repr

/-- `QuestionPerformance` record from `types.ts` (`lastAnswered : Date | null`
modelled as millisecond timestamp). -/
structure QuestionPerformance where
  questionId : String
  correctCount : Nat
  incorrectCount : Nat
  lastAnswered : Option Nat
  lastCorrect : Option Bool
  scheduledNext : Option Nat
deriving DecidableEq, Repr

/-- The performance ledger: JS `Map<string, QuestionPerformance>` as an
association list in insertion order with unique keys. -/
abbrev PerfMap := List (String × QuestionPerformance)

/-- JS `Map.get`: the value bound to `id`, if any. -/
def perfGet (m : PerfMap) (id : String) : Option QuestionPerformance :=
  match m with
  | [] => none
  | (k, v) :: rest => if k = id then some v else perfGet rest id

/-- JS `Map.set`: replace the binding of an existing key in place,
otherwise append a new binding. -/
def perfSet (m : PerfMap) (id : String) (v : QuestionPerformance) : PerfMap :=
  match m with
  | [] => [(id, v)]
  | (k, w) :: rest => if k = id then (k, v) :: rest else (k, w) :: perfSet rest id v

/-- `createInitialPerformance` from `performance.ts`. -/
def createInitialPerformance (questionId : String) : QuestionPerformance :=
  { questionId := questionId
    correctCount := 0
    incorrectCount := 0
    lastAnswered := none
    lastCorrect := none
    scheduledNext := none }

/-- `updatePerformance` from `performance.ts`.  The ambient `new Date()` is
the explicit timestamp `t`; the draw `Math.floor(Math.random() * 7)` is
`g % 7` for an arbitrary `g`. -/
def updatePerformance (performance : QuestionPerformance) (isCorrect : Bool)
    (currentIndex : Nat) (t : Nat) (g : Nat) : QuestionPerformance :=
  let updated := { performance with
    lastAnswered := some t
    lastCorrect := some isCorrect }
  if isCorrect then
    { updated with
      correctCount := updated.correctCount + 1
      scheduledNext := none }
  else
    { updated with
      incorrectCount := updated.incorrectCount + 1
      scheduledNext := some (currentIndex + g % 7 + 4) }

/-- Object-store model of a call to `updatePerformance`, capturing the JS
reference semantics of the body: the store is a list of
`QuestionPerformance` objects addressed by index, `ref` is the argument
object.  `const updated = { ...performance, ... }` allocates a fresh object
at the end of the store, and the subsequent `updated.correctCount++` /
`updated.scheduledNext = ...` statements mutate only that fresh object.
Returns the new store and the reference to the result object. -/
def updatePerformanceObj (store : List QuestionPerformance) (ref : Nat)
    (isCorrect : Bool) (currentIndex : Nat) (t : Nat) (g : Nat) :
    List QuestionPerformance × Nat :=
  let performance := store.getD ref (createInitialPerformance "")
  let updated := { performance with
    lastAnswered := some t
    lastCorrect := some isCorrect }
  let uref := store.length
  let store1 := store ++ [updated]
  let finalObj :=
    if isCorrect then
      { updated with
        correctCount := updated.correctCount + 1
        scheduledNext := none }
    else
      { updated with
        incorrectCount := updated.incorrectCount + 1
        scheduledNext := some (currentIndex + g % 7 + 4) }
  (store1.set uref finalObj, uref)

/-- Result record of `getPerformanceStats`; `accuracy` is a JS float,
modelled as an exact rational. -/
structure PerfStats where
  totalQuestions : Nat
  totalAnswered : Nat
  totalCorrect : Nat
  totalIncorrect : Nat
  accuracy : ℚ
  needsReview : Nat
deriving DecidableEq, Repr

/-- One iteration of the `performance.forEach` body of `getPerformanceStats`. -/
def statsStep (s : PerfStats) (perf : QuestionPerformance) : PerfStats :=
  let s1 := if perf.lastAnswered.isSome then { s with totalAnswered := s.totalAnswered + 1 } else s
  let s2 := { s1 with
    totalCorrect := s1.totalCorrect + perf.correctCount
    totalIncorrect := s1.totalIncorrect + perf.incorrectCount }
  if perf.lastCorrect = some false ∨ perf.lastCorrect = none then
    { s2 with needsReview := s2.needsReview + 1 }
  else s2

/-- `getPerformanceStats` from `performance.ts`. -/
def getPerformanceStats (performance : PerfMap) : PerfStats :=
  let stats : PerfStats :=
    { totalQuestions := performance.length
      totalAnswered := 0
      totalCorrect := 0
      totalIncorrect := 0
      accuracy := 0
      needsReview := 0 }
  let stats := performance.foldl (fun s kv => statsStep s kv.2) stats
  if stats.totalCorrect + stats.totalIncorrect > 0 then
    { stats with accuracy :=
        ((stats.totalCorrect : ℚ) / ((stats.totalCorrect : ℚ) + (stats.totalIncorrect : ℚ))) * 100 }
  else stats

/-- `getQuestionsForReview` from `performance.ts`. -/
def getQuestionsForReview (questions : List Question) (performance : PerfMap) :
    List Question :=
  questions.filter fun q =>
    match perfGet performance q.id with
    | none => true
    | some perf => perf.lastCorrect == some false || perf.lastCorrect == none

/-- The JS destructuring swap `[l[i], l[j]] = [l[j], l[i]]` (in the shuffle
loop both indices are always in bounds; out of bounds is a no-op to keep the
function total). -/
def swapEntries {α : Type} (l : List α) (i j : Nat) : List α :=
  match l[i]?, l[j]? with
  | some a, some b => (l.set i b).set j a
  | _, _ => l

/-- The Fisher–Yates loop of `shuffleQuestions`: `i` is the loop variable
counting down, `k` indexes the random stream `g`; the draw
`Math.floor(Math.random() * (i + 1))` at loop index `i + 1` is
`g k % (i + 2)`. -/
def shuffleAux {α : Type} (g : Nat → Nat) (k : Nat) (l : List α) (i : Nat) : List α :=
  match i with
  | 0 => l
  | i + 1 => shuffleAux g (k + 1) (swapEntries l (i + 1) (g k % (i + 2))) i

/-- `shuffleQuestions` from `performance.ts` (Fisher–Yates over a copy,
starting at index `length - 1` and running while `i > 0`). -/
def shuffleQuestions (questions : List Question) (g : Nat → Nat) : List Question :=
  match questions.length with
  | 0 => questions
  | n + 1 => shuffleAux g 0 questions n

/-- The `questions.forEach` partition at the top of `weightedShuffle`:
returns `(correct, incorrect, unseen)`, each in input order. -/
def bucketize (performance : PerfMap) :
    List Question → List Question × List Question × List Question
  | [] => ([], [], [])
  | q :: rest =>
    let (correct, incorrect, unseen) := bucketize performance rest
    match perfGet performance q.id with
    | none => (correct, incorrect, q :: unseen)
    | some perf =>
      match perf.lastCorrect with
      | none => (correct, incorrect, q :: unseen)
      | some false => (correct, q :: incorrect, unseen)
      | some true => (q :: correct, incorrect, unseen)

/-- Placeholder element for the (always in-bounds) indexed reads of the
first-third loop. -/
def defaultQuestion : Question :=
  { id := "", question := "", options := [], answer := "", explanation := "" }

/-- The first-third loop of `weightedShuffle`.  `fuel` counts the remaining
iterations (initially `floor(length / 3)`); the draw `Math.random()` at
stream index `k` is classified against the `0.5` / `0.8` thresholds via
`r k % 10`.  Returns the accumulated output and the three bucket cursors. -/
def firstThirdLoop (r : Nat → Nat) (sInc sUns sCor : List Question)
    (k ii ui ci : Nat) (acc : List Question) (fuel : Nat) :
    List Question × Nat × Nat × Nat :=
  match fuel with
  | 0 => (acc, ii, ui, ci)
  | fuel + 1 =>
    let rand := r k % 10
    if rand < 5 ∧ ii < sInc.length then
      firstThirdLoop r sInc sUns sCor (k + 1) (ii + 1) ui ci
        (acc ++ [sInc.getD ii defaultQuestion]) fuel
    else if rand < 8 ∧ ui < sUns.length then
      firstThirdLoop r sInc sUns sCor (k + 1) ii (ui + 1) ci
        (acc ++ [sUns.getD ui defaultQuestion]) fuel
    else if ci < sCor.length then
      firstThirdLoop r sInc sUns sCor (k + 1) ii ui (ci + 1)
        (acc ++ [sCor.getD ci defaultQuestion]) fuel
    else
      firstThirdLoop r sInc sUns sCor (k + 1) ii ui ci acc fuel

/-- `weightedShuffle` from `performance.ts`.  The single ambient
`Math.random()` stream is split into one stream per shuffle (`g1 g2 g3`)
plus one for the first-third draws (`r`); the claims quantify over all
streams, so this loses no behaviour. -/
def weightedShuffle (questions : List Question) (performance : PerfMap)
    (g1 g2 g3 r : Nat → Nat) : List Question :=
  let (correct, incorrect, unseen) := bucketize performance questions
  let shuffledIncorrect := shuffleQuestions incorrect g1
  let shuffledUnseen := shuffleQuestions unseen g2
  let shuffledCorrect := shuffleQuestions correct g3
  let firstThird := questions.length / 3
  let (res, ii, ui, ci) :=
    firstThirdLoop r shuffledIncorrect shuffledUnseen shuffledCorrect 0 0 0 0 [] firstThird
  res ++ shuffledIncorrect.drop ii ++ shuffledUnseen.drop ui ++ shuffledCorrect.drop ci

/-- Serialized form of a record in storage: `lastAnswered` holds the
ISO-8601 string, modelled by the millisecond timestamp it denotes
(`Date.prototype.toISOString` / `new Date(iso)` is a bijection between
millisecond timestamps and the ISO strings it emits); every other field is
carried through JSON unchanged. -/
structure SerializedPerformance where
  questionId : String
  correctCount : Nat
  incorrectCount : Nat
  lastAnswered : Option Nat
  lastCorrect : Option Bool
  scheduledNext : Option Nat
deriving DecidableEq, Repr

/-- The per-entry body of `savePerformanceToStorage`:
`{ ...perf, lastAnswered: perf.lastAnswered?.toISOString() || null }`. -/
def serializeRecord (perf : QuestionPerformance) : SerializedPerformance :=
  { questionId := perf.questionId
    correctCount := perf.correctCount
    incorrectCount := perf.incorrectCount
    lastAnswered := match perf.lastAnswered with
      | some d => some d
      | none => none
    lastCorrect := perf.lastCorrect
    scheduledNext := perf.scheduledNext }

/-- `savePerformanceToStorage` from `performance.ts`, up to the JSON text:
the value written is the list of `[id, serialized record]` pairs (the
`localStorage` write and `JSON.stringify` of that list are the storage
adapter's side; `JSON.parse ∘ JSON.stringify` is the identity on it). -/
def savePerformanceToStorage (performance : PerfMap) :
    List (String × SerializedPerformance) :=
  performance.map fun kv => (kv.1, serializeRecord kv.2)

/-- The per-entry body of the `parsed.forEach` in `loadPerformanceFromStorage`:
`{ ...perf, lastAnswered: perf.lastAnswered ? new Date(perf.lastAnswered) : null }`. -/
def deserializeRecord (perf : SerializedPerformance) : QuestionPerformance :=
  { questionId := perf.questionId
    correctCount := perf.correctCount
    incorrectCount := perf.incorrectCount
    lastAnswered := match perf.lastAnswered with
      | some d => some d
      | none => none
    lastCorrect := perf.lastCorrect
    scheduledNext := perf.scheduledNext }

/-- `loadPerformanceFromStorage` from `performance.ts` on a present,
well-formed stored value: rebuild the `Map` by `performance.set(id, …)`
over the parsed pair list in order. -/
def loadPerformanceFromStorage (parsed : List (String × SerializedPerformance)) :
    PerfMap :=
  parsed.foldl (fun m kv => perfSet m kv.1 (deserializeRecord kv.2)) []

/-- `StudyMode` from `types.ts` / `App.tsx` (the `'fill-in-blank'` value is
used by `App.tsx`). -/
inductive StudyMode where
  | flashcard
  | quiz
  | review
  | memorise
  | fillInBlank
deriving DecidableEq, Repr

/-- The `App` component state the engine claims touch: the question bank,
the ledger, and the active session (`currentMode`/`currentQuestions`/
`currentIndex`). -/
structure AppState where
  questions : List Question
  performance : PerfMap
  currentMode : Option StudyMode
  currentQuestions : List Question
  currentIndex : Nat
deriving DecidableEq, Repr

/-- `handleAnswer` from `App.tsx`.  `currentQuestions[currentIndex]` is the
optional indexing; a missing current question returns the state unchanged.
The splice `newQuestions.splice(insertIndex, 0, currentQuestion)` on the
cloned list is `take insertIndex ++ [q] ++ drop insertIndex`. -/
def handleAnswer (st : AppState) (isCorrect : Bool) (t g : Nat) : AppState :=
  match st.currentQuestions[st.currentIndex]? with
  | none => st
  | some currentQuestion =>
    let currentPerf := (perfGet st.performance currentQuestion.id).getD
      (createInitialPerformance currentQuestion.id)
    let updatedPerf := updatePerformance currentPerf isCorrect st.currentIndex t g
    let performance1 := perfSet st.performance currentQuestion.id updatedPerf
    match isCorrect, updatedPerf.scheduledNext with
    | false, some s =>
      let insertIndex := min s st.currentQuestions.length
      { st with
        performance := performance1
        currentQuestions :=
          st.currentQuestions.take insertIndex ++
            currentQuestion :: st.currentQuestions.drop insertIndex }
    | _, _ => { st with performance := performance1 }

/-- The one domain-level failure of `startMode`: the review list is empty
(`alert` + early return in `App.tsx`). -/
inductive StartError where
  | noQuestionsToReview
deriving DecidableEq, Repr

/-- `startMode` from `App.tsx`.  On the empty-review early return the state
is unchanged (modelled by `.error`); otherwise the session fields are set
and the cursor reset to 0. -/
def startMode (st : AppState) (mode : StudyMode) (g1 g2 g3 r : Nat → Nat) :
    Except StartError AppState :=
  match mode with
  | .review =>
    let questionsToUse := getQuestionsForReview st.questions st.performance
    if questionsToUse.length = 0 then .error .noQuestionsToReview
    else .ok { st with
      currentMode := some .review
      currentQuestions := questionsToUse
      currentIndex := 0 }
  | .memorise =>
    .ok { st with
      currentMode := some .memorise
      currentQuestions := st.questions
      currentIndex := 0 }
  | mode =>
    .ok { st with
      currentMode := some mode
      currentQuestions := weightedShuffle st.questions st.performance g1 g2 g3 r
      currentIndex := 0 }

/-- Model of `String.prototype.trim`: drop whitespace from both ends
(character-list form, so the kernel can evaluate it). -/
def jsTrim (s : String) : String :=
  ⟨(((s.data.dropWhile Char.isWhitespace).reverse.dropWhile Char.isWhitespace).reverse)⟩

/-- Model of `String.prototype.toUpperCase` on the relevant alphabet:
upper-case every character (character-list form, kernel-evaluable). -/
def jsToUpper (s : String) : String :=
  ⟨s.data.map Char.toUpper⟩

/-- `getCorrectOptionIndex` from the quiz components: trim and upper-case
the declared answer, look it up in `{A:0, B:1, C:2, D:3}`, and fall back to
the sentinel `-1` when the lookup is `undefined`. -/
def getCorrectOptionIndex (currentQuestion : Question) : Int :=
  let answerLetter := jsToUpper (jsTrim currentQuestion.answer)
  if answerLetter = "A" then 0
  else if answerLetter = "B" then 1
  else if answerLetter = "C" then 2
  else if answerLetter = "D" then 3
  else -1

/-! ## Claim theorems -/

/-- C1: for every record `r`, boolean `isCorrect`, and position `p` (and
every ambient timestamp `t` and random draw `g`), `updatePerformance` sets
`lastAnswered` and `lastCorrect = isCorrect`; if correct it increments
`correctCount` and clears `scheduledNext`; if incorrect it increments
`incorrectCount` and schedules a reappearance in `[p + 4, p + 10]`. -/
theorem updatePerformance_spec (r : QuestionPerformance) (isCorrect : Bool)
    (p t g : Nat) :
    (updatePerformance r isCorrect p t g).lastAnswered.isSome = true ∧
    (updatePerformance r isCorrect p t g).lastCorrect = some isCorrect ∧
    (isCorrect = true →
      (updatePerformance r isCorrect p t g).correctCount = r.correctCount + 1 ∧
      (updatePerformance r isCorrect p t g).scheduledNext = none) ∧
    (isCorrect = false →
      (updatePerformance r isCorrect p t g).incorrectCount = r.incorrectCount + 1 ∧
      ∃ s, (updatePerformance r isCorrect p t g).scheduledNext = some s ∧
        p + 4 ≤ s ∧ s ≤ p + 10) := by
  cases isCorrect with
  | true => simp [updatePerformance]
  | false =>
    refine ⟨by simp [updatePerformance], by simp [updatePerformance],
      by simp, fun _ => ⟨by simp [updatePerformance], p + g % 7 + 4,
        by simp [updatePerformance], by omega, by omega⟩⟩

/-- C5 counterexample: with identical `(record, outcome, position)` inputs
but two ambient draws that `Math.random()` can yield, `updatePerformance`
returns structurally different records, so it is not deterministic in those
three inputs alone. -/
theorem updatePerformance_ambient_dependent :
    updatePerformance (createInitialPerformance "q") false 0 0 0 ≠
      updatePerformance (createInitialPerformance "q") false 0 0 1 := by
  decide

/-- C5 (amended): in the object-store model of a call, the argument object
is unchanged after the call and the result is a freshly allocated record
whose value is determined by `(record, outcome, position)` together with
the ambient timestamp and random draw — the pure function
`updatePerformance` of those five inputs. -/
theorem updatePerformance_pure (store : List QuestionPerformance) (ref : Nat)
    (b : Bool) (p t g : Nat) (h : ref < store.length) :
    (updatePerformanceObj store ref b p t g).1[ref]? = store[ref]? ∧
    (updatePerformanceObj store ref b p t g).2 ≠ ref ∧
    (updatePerformanceObj store ref b p t g).1[(updatePerformanceObj store ref b p t g).2]? =
      some (updatePerformance (store.getD ref (createInitialPerformance "")) b p t g) := by
  refine ⟨?_, ?_, ?_⟩
  · show ((store ++ [_]).set store.length _)[ref]? = store[ref]?
    rw [List.getElem?_set_ne (by omega), List.getElem?_append]
    simp [h]
  · show store.length ≠ ref
    omega
  · show ((store ++ [_]).set store.length _)[store.length]? = some _
    rw [List.getElem?_set_self (by simp)]
    cases b <;> rfl

/-- Witness for C5's amended theorem at a concrete one-object store. -/
theorem updatePerformance_pure_witness :
    0 < [createInitialPerformance "q"].length ∧
    (updatePerformanceObj [createInitialPerformance "q"] 0 false 3 7 2).1[(0 : Nat)]? =
      [createInitialPerformance "q"][(0 : Nat)]? := by
  refine ⟨by decide, ?_⟩
  exact (updatePerformance_pure [createInitialPerformance "q"] 0 false 3 7 2 (by decide)).1

/-- C9: `getCorrectOptionIndex` maps a declared answer normalising to
`A`/`B`/`C`/`D` to the option index `0`/`1`/`2`/`3`, returns the sentinel
`-1` on every other answer, and a selected option (a non-negative index)
never compares equal to the sentinel. -/
theorem getCorrectOptionIndex_spec (q : Question) :
    (jsToUpper (jsTrim q.answer) = "A" → getCorrectOptionIndex q = 0) ∧
    (jsToUpper (jsTrim q.answer) = "B" → getCorrectOptionIndex q = 1) ∧
    (jsToUpper (jsTrim q.answer) = "C" → getCorrectOptionIndex q = 2) ∧
    (jsToUpper (jsTrim q.answer) = "D" → getCorrectOptionIndex q = 3) ∧
    (jsToUpper (jsTrim q.answer) ≠ "A" → jsToUpper (jsTrim q.answer) ≠ "B" →
      jsToUpper (jsTrim q.answer) ≠ "C" → jsToUpper (jsTrim q.answer) ≠ "D" →
      getCorrectOptionIndex q = -1) ∧
    (∀ selectedOption : Nat, getCorrectOptionIndex q = -1 →
      (selectedOption : Int) ≠ getCorrectOptionIndex q) := by
  refine ⟨fun h => by simp [getCorrectOptionIndex, h],
    fun h => by simp [getCorrectOptionIndex, h],
    fun h => by simp [getCorrectOptionIndex, h],
    fun h => by simp [getCorrectOptionIndex, h],
    fun hA hB hC hD => by simp [getCorrectOptionIndex, hA, hB, hC, hD],
    fun selectedOption h => by rw [h]; omega⟩

/-- Witness for C9 at a concrete question whose answer is `" b "`. -/
theorem getCorrectOptionIndex_spec_witness :
    getCorrectOptionIndex
      { id := "q1", question := "?", options := ["w", "x", "y", "z"],
        answer := " b ", explanation := "" } = 1 := by
  apply (getCorrectOptionIndex_spec _).2.1
  decide

/-- C10: when the cursor is out of bounds of the ordered list,
`handleAnswer` is a total no-op: the whole state (ledger and ordered list
included) is returned unchanged, for either outcome. -/
theorem handleAnswer_out_of_bounds (st : AppState) (b : Bool) (t g : Nat)
    (h : st.currentQuestions.length ≤ st.currentIndex) :
    handleAnswer st b t g = st := by
  unfold handleAnswer
  rw [List.getElem?_eq_none h]

/-- Witness for C10 on a concrete completed session (cursor past the end). -/
theorem handleAnswer_out_of_bounds_witness :
    ([defaultQuestion] : List Question).length ≤ 1 ∧
    handleAnswer
      { questions := [defaultQuestion], performance := [],
        currentMode := some StudyMode.quiz, currentQuestions := [defaultQuestion],
        currentIndex := 1 } true 0 0 =
      { questions := [defaultQuestion], performance := [],
        currentMode := some StudyMode.quiz, currentQuestions := [defaultQuestion],
        currentIndex := 1 } := by
  refine ⟨by decide, ?_⟩
  exact handleAnswer_out_of_bounds _ true 0 0 (by decide)

/-- With no ledger entry, every question passes the review filter. -/
theorem getQuestionsForReview_nil_ledger (qs : List Question) :
    getQuestionsForReview qs [] = qs := by
  unfold getQuestionsForReview
  rw [List.filter_eq_self]
  exact fun a _ => rfl

/-- A concrete three-question bank with no recorded performance. -/
def bank3State : AppState :=
  { questions :=
      [{ id := "q1", question := "?", options := ["a", "b"], answer := "A", explanation := "" },
       { id := "q2", question := "?", options := ["a", "b"], answer := "B", explanation := "" },
       { id := "q3", question := "?", options := ["a", "b"], answer := "C", explanation := "" }]
    performance := []
    currentMode := none
    currentQuestions := []
    currentIndex := 0 }

/-- C3 counterexample: on a bank of 3 questions with an empty ledger,
`startMode 'review'` does **not** fail with `NoQuestionsToReview` — every
unrecorded question needs review, so the session starts with all three. -/
theorem startMode_review_empty_ledger_not_error :
    startMode bank3State .review (fun _ => 0) (fun _ => 0) (fun _ => 0) (fun _ => 0) =
      .ok { bank3State with
        currentMode := some StudyMode.review
        currentQuestions := bank3State.questions } ∧
    startMode bank3State .review (fun _ => 0) (fun _ => 0) (fun _ => 0) (fun _ => 0) ≠
      .error .noQuestionsToReview := by
  have h0 : startMode bank3State .review (fun _ => 0) (fun _ => 0) (fun _ => 0) (fun _ => 0) =
      .ok { bank3State with
        currentMode := some StudyMode.review
        currentQuestions := bank3State.questions } := rfl
  refine ⟨h0, fun h => ?_⟩
  rw [h0] at h
  simp at h

/-- C3 (amended): for a bank of 3 questions and an empty ledger,
`start('review', …)` succeeds — all three questions need review (no record
means review-eligible), the session holds them in original order with the
cursor at 0; `NoQuestionsToReview` arises only when the review filter
returns an empty list. -/
theorem startMode_review_empty_ledger (q1 q2 q3 : Question) (cm : Option StudyMode)
    (cq : List Question) (ci : Nat) (g1 g2 g3 r : Nat → Nat) :
    startMode { questions := [q1, q2, q3], performance := [], currentMode := cm,
                currentQuestions := cq, currentIndex := ci } .review g1 g2 g3 r =
      .ok { questions := [q1, q2, q3], performance := [], currentMode := some .review,
            currentQuestions := [q1, q2, q3], currentIndex := 0 } := by
  unfold startMode
  rw [getQuestionsForReview_nil_ledger]
  simp

/-- C6: `getQuestionsForReview` keeps exactly the questions whose record is
absent or whose `lastCorrect` is `false`/unknown, excludes every question
whose record says `lastCorrect = true`, and is an order-preserving pure
filter (a sublist of the input). -/
theorem getQuestionsForReview_spec (questions : List Question) (performance : PerfMap) :
    (∀ q, q ∈ getQuestionsForReview questions performance ↔
      q ∈ questions ∧
        (perfGet performance q.id = none ∨
          ∃ p, perfGet performance q.id = some p ∧
            (p.lastCorrect = some false ∨ p.lastCorrect = none))) ∧
    (∀ q p, q ∈ getQuestionsForReview questions performance →
      perfGet performance q.id = some p → p.lastCorrect ≠ some true) ∧
    (getQuestionsForReview questions performance).Sublist questions := by
  have hmem : ∀ q, q ∈ getQuestionsForReview questions performance ↔
      q ∈ questions ∧
        (perfGet performance q.id = none ∨
          ∃ p, perfGet performance q.id = some p ∧
            (p.lastCorrect = some false ∨ p.lastCorrect = none)) := by
    intro q
    rw [getQuestionsForReview, List.mem_filter]
    refine and_congr_right fun _ => ?_
    cases hpg : perfGet performance q.id with
    | none => simp [hpg]
    | some p =>
      simp only [hpg]
      constructor
      · intro hb
        refine Or.inr ⟨p, rfl, ?_⟩
        simpa using hb
      · rintro (h | ⟨p', hp', hc⟩)
        · exact absurd h (by simp)
        · obtain rfl := Option.some.inj hp'
          simpa using hc
  refine ⟨hmem, fun q p hq hp => ?_, List.filter_sublist _⟩
  rcases ((hmem q).mp hq).2 with h | ⟨p', hp', hc⟩
  · rw [h] at hp; exact Option.noConfusion hp
  · rw [hp'] at hp
    obtain rfl := Option.some.inj hp
    rcases hc with hc | hc <;> simp [hc]

/-- C2: with a valid cursor and an incorrect answer, the updated record
carries a `scheduledNext` in `[cursor + 4, cursor + 10]` and the session's
ordered list becomes the old list with the *same* current question entry
spliced in at `min(scheduledNext, length)` (so the rest keeps its relative
order and the length grows by one); with a correct answer the ordered list
is unchanged. -/
theorem handleAnswer_reinsertion (st : AppState) (t g : Nat)
    (h : st.currentIndex < st.currentQuestions.length) :
    (∃ q, st.currentQuestions[st.currentIndex]? = some q ∧
      ∃ s, (updatePerformance ((perfGet st.performance q.id).getD
          (createInitialPerformance q.id)) false st.currentIndex t g).scheduledNext = some s ∧
        st.currentIndex + 4 ≤ s ∧ s ≤ st.currentIndex + 10 ∧
        (handleAnswer st false t g).currentQuestions =
          st.currentQuestions.take (min s st.currentQuestions.length) ++
            q :: st.currentQuestions.drop (min s st.currentQuestions.length) ∧
        (handleAnswer st false t g).currentQuestions.length =
          st.currentQuestions.length + 1) ∧
    (handleAnswer st true t g).currentQuestions = st.currentQuestions := by
  obtain ⟨q, hq⟩ : ∃ q, st.currentQuestions[st.currentIndex]? = some q :=
    ⟨_, List.getElem?_eq_getElem h⟩
  have hsplice : (handleAnswer st false t g).currentQuestions =
      st.currentQuestions.take
          (min (st.currentIndex + g % 7 + 4) st.currentQuestions.length) ++
        q :: st.currentQuestions.drop
          (min (st.currentIndex + g % 7 + 4) st.currentQuestions.length) := by
    unfold handleAnswer
    rw [hq]
    rfl
  refine ⟨⟨q, hq, st.currentIndex + g % 7 + 4, rfl, by omega, by omega, hsplice, ?_⟩, ?_⟩
  · rw [hsplice]
    simp only [List.length_append, List.length_cons, List.length_take, List.length_drop]
    omega
  · unfold handleAnswer
    rw [hq]

/-- A concrete one-question active session for exercising `handleAnswer`. -/
def activeSession1 : AppState :=
  { questions := [defaultQuestion]
    performance := []
    currentMode := some StudyMode.flashcard
    currentQuestions := [defaultQuestion]
    currentIndex := 0 }

/-- Witness for C2 on a concrete one-question session. -/
theorem handleAnswer_reinsertion_witness :
    activeSession1.currentIndex < activeSession1.currentQuestions.length ∧
    (handleAnswer activeSession1 false 0 0).currentQuestions.length =
      activeSession1.currentQuestions.length + 1 := by
  refine ⟨by decide, ?_⟩
  obtain ⟨⟨q, hq, s, hs, h4, h10, hsp, hlen⟩, htrue⟩ :=
    handleAnswer_reinsertion activeSession1 0 0 (by decide)
  exact hlen

/-- Closed form of the `forEach` fold inside `getPerformanceStats`: counts
and sums over the ledger's records, added to the accumulator's fields;
`totalQuestions` and `accuracy` pass through. -/
theorem statsFold_eq (l : PerfMap) (s : PerfStats) :
    l.foldl (fun s kv => statsStep s kv.2) s =
      { totalQuestions := s.totalQuestions
        totalAnswered := s.totalAnswered + l.countP (fun kv => kv.2.lastAnswered.isSome)
        totalCorrect := s.totalCorrect + (l.map fun kv => kv.2.correctCount).sum
        totalIncorrect := s.totalIncorrect + (l.map fun kv => kv.2.incorrectCount).sum
        accuracy := s.accuracy
        needsReview := s.needsReview + l.countP
          (fun kv => decide (kv.2.lastCorrect = some false ∨ kv.2.lastCorrect = none)) } := by
  induction l generalizing s with
  | nil => simp
  | cons kv rest ih =>
    rw [List.foldl_cons, ih]
    unfold statsStep
    by_cases h1 : kv.2.lastAnswered.isSome <;>
      by_cases h2 : kv.2.lastCorrect = some false ∨ kv.2.lastCorrect = none <;>
      simp [h1, h2, List.countP_cons] <;> omega

/-- Closed form of `getPerformanceStats` itself. -/
theorem getPerformanceStats_eq (l : PerfMap) :
    getPerformanceStats l =
      { totalQuestions := l.length
        totalAnswered := l.countP (fun kv => kv.2.lastAnswered.isSome)
        totalCorrect := (l.map fun kv => kv.2.correctCount).sum
        totalIncorrect := (l.map fun kv => kv.2.incorrectCount).sum
        accuracy :=
          if (l.map fun kv => kv.2.correctCount).sum +
              (l.map fun kv => kv.2.incorrectCount).sum > 0 then
            ((Nat.cast (l.map fun kv => kv.2.correctCount).sum /
                (Nat.cast (l.map fun kv => kv.2.correctCount).sum +
                  Nat.cast (l.map fun kv => kv.2.incorrectCount).sum) : ℚ)) * 100
          else 0
        needsReview := l.countP
          (fun kv => decide (kv.2.lastCorrect = some false ∨ kv.2.lastCorrect = none)) } := by
  unfold getPerformanceStats
  simp only [statsFold_eq, Nat.zero_add]
  split_ifs with h <;> simp

/-- C7: `getPerformanceStats` reports an accuracy equal to
`100 * totalCorrect / (totalCorrect + totalIncorrect)` (0 when the
denominator is 0), always within `[0, 100]`; `totalAnswered` counts the
records with `lastAnswered` present; `needsReview` counts the records whose
`lastCorrect` is `false` or unknown. -/
theorem getPerformanceStats_spec (performance : PerfMap) :
    ((getPerformanceStats performance).accuracy =
      if (getPerformanceStats performance).totalCorrect +
          (getPerformanceStats performance).totalIncorrect = 0 then 0
      else 100 * ((getPerformanceStats performance).totalCorrect : ℚ) /
        (((getPerformanceStats performance).totalCorrect : ℚ) +
          ((getPerformanceStats performance).totalIncorrect : ℚ))) ∧
    0 ≤ (getPerformanceStats performance).accuracy ∧
    (getPerformanceStats performance).accuracy ≤ 100 ∧
    ((getPerformanceStats performance).totalCorrect +
        (getPerformanceStats performance).totalIncorrect = 0 →
      (getPerformanceStats performance).accuracy = 0) ∧
    (getPerformanceStats performance).totalAnswered =
      performance.countP (fun kv => kv.2.lastAnswered.isSome) ∧
    (getPerformanceStats performance).needsReview =
      performance.countP
        (fun kv => decide (kv.2.lastCorrect = some false ∨ kv.2.lastCorrect = none)) := by
  have hacc : ∀ (tc ti : Nat), 0 < tc + ti →
      0 ≤ ((tc : ℚ) / ((tc : ℚ) + (ti : ℚ))) * 100 ∧
        ((tc : ℚ) / ((tc : ℚ) + (ti : ℚ))) * 100 ≤ 100 := by
    intro tc ti hpos
    have hd : (0 : ℚ) < (tc : ℚ) + (ti : ℚ) := by
      have h0 : (0 : ℚ) < ((tc + ti : Nat) : ℚ) := by exact_mod_cast hpos
      push_cast at h0
      linarith
    constructor
    · positivity
    · have h1 : ((tc : ℚ) / ((tc : ℚ) + (ti : ℚ))) ≤ 1 := by
        rw [div_le_one hd]
        have h2 : (0 : ℚ) ≤ (ti : ℚ) := by positivity
        linarith
    
      nlinarith
  rw [getPerformanceStats_eq]
  dsimp only
  set tc := (performance.map fun kv => kv.2.correctCount).sum with htc
  set ti := (performance.map fun kv => kv.2.incorrectCount).sum with hti
  by_cases hz : tc + ti = 0
  · have hnpos : ¬ tc + ti > 0 := by omega
    rw [if_neg hnpos, if_pos hz]
    exact ⟨rfl, le_refl _, by norm_num, fun _ => rfl, rfl, rfl⟩
  · have hpos : 0 < tc + ti := Nat.pos_of_ne_zero hz
    obtain ⟨hge, hle⟩ := hacc tc ti hpos
    rw [if_pos hpos, if_neg hz]
    refine ⟨?_, hge, hle, fun hcontra => absurd hcontra hz, rfl, rfl⟩
    rw [mul_comm, mul_div_assoc]

/-- Deserialization undoes serialization on a single record: counts,
`lastCorrect` and `scheduledNext` pass through, a present `lastAnswered`
survives the ISO round trip, and an absent one stays absent. -/
theorem deserializeRecord_serializeRecord (perf : QuestionPerformance) :
    deserializeRecord (serializeRecord perf) = perf := by
  cases perf with
  | mk questionId correctCount incorrectCount lastAnswered lastCorrect scheduledNext =>
    cases lastAnswered <;> rfl

/-- `Map.set` on an absent key appends the new binding. -/
theorem perfSet_eq_append (m : PerfMap) (id : String) (v : QuestionPerformance)
    (h : ∀ kv ∈ m, kv.1 ≠ id) : perfSet m id v = m ++ [(id, v)] := by
  induction m with
  | nil => rfl
  | cons kv rest ih =>
    unfold perfSet
    rw [if_neg (h kv (List.mem_cons_self kv rest)), ih fun kv' hkv' => h kv' (List.mem_cons_of_mem kv hkv')]
    rfl

/-- Replaying serialized entries with `Map.set` over an accumulator whose
keys are disjoint from the (duplicate-free) entry keys appends the original
ledger. -/
theorem load_save_fold (l : PerfMap) (acc : PerfMap)
    (hnd : (l.map Prod.fst).Nodup)
    (hdisj : ∀ kv ∈ acc, kv.1 ∉ l.map Prod.fst) :
    (savePerformanceToStorage l).foldl
      (fun m kv => perfSet m kv.1 (deserializeRecord kv.2)) acc = acc ++ l := by
  induction l generalizing acc with
  | nil => simp [savePerformanceToStorage]
  | cons kv rest ih =>
    have hstep : perfSet acc kv.1 (deserializeRecord (serializeRecord kv.2)) =
        acc ++ [(kv.1, kv.2)] := by
      rw [deserializeRecord_serializeRecord]
      exact perfSet_eq_append acc kv.1 kv.2 fun kv' hkv' => by
        have := hdisj kv' hkv'
        simp only [List.map_cons, List.mem_cons] at this
        exact fun hc => this (Or.inl hc)
    show (savePerformanceToStorage rest).foldl
        (fun m kv => perfSet m kv.1 (deserializeRecord kv.2))
        (perfSet acc kv.1 (deserializeRecord (serializeRecord kv.2))) = acc ++ kv :: rest
    rw [hstep, ih]
    · simp
    · exact (List.nodup_cons.mp (by simpa using hnd)).2
    · intro kv' hkv'
      rcases List.mem_append.mp hkv' with hm | hm
      · have := hdisj kv' hm
        simp only [List.map_cons, List.mem_cons] at this
        exact fun hc => this (Or.inr hc)
      · have : kv' = (kv.1, kv.2) := by simpa using hm
        rw [this]
        exact (List.nodup_cons.mp (by simpa using hnd)).1

/-- C8: serializing a ledger (with its invariant unique keys) to the storage
pair-list and deserializing reproduces the ledger exactly: same keys, same
counts, `lastCorrect` and `scheduledNext`, `lastAnswered` equal after the
ISO round trip, absent fields still absent. -/
theorem storage_round_trip (performance : PerfMap)
    (h : (performance.map Prod.fst).Nodup) :
    loadPerformanceFromStorage (savePerformanceToStorage performance) = performance := by
  unfold loadPerformanceFromStorage
  rw [load_save_fold performance [] h (by simp)]
  rfl

/-- Witness for C8 on a concrete two-entry ledger exercising both a present
and an absent `lastAnswered`. -/
theorem storage_round_trip_witness :
    (([("q1", { questionId := "q1", correctCount := 2, incorrectCount := 1,
                lastAnswered := some 1700000000000, lastCorrect := some true,
                scheduledNext := none }),
       ("q2", createInitialPerformance "q2")] : PerfMap).map Prod.fst).Nodup ∧
    loadPerformanceFromStorage (savePerformanceToStorage
      [("q1", { questionId := "q1", correctCount := 2, incorrectCount := 1,
                lastAnswered := some 1700000000000, lastCorrect := some true,
                scheduledNext := none }),
       ("q2", createInitialPerformance "q2")]) =
      [("q1", { questionId := "q1", correctCount := 2, incorrectCount := 1,
                lastAnswered := some 1700000000000, lastCorrect := some true,
                scheduledNext := none }),
       ("q2", createInitialPerformance "q2")] := by
  refine ⟨by decide, ?_⟩
  exact storage_round_trip _ (by decide)

/-- Putting the displaced element in front of a pointwise update is a
permutation of putting the new element in front of the original list. -/
theorem cons_set_perm {α : Type} :
    ∀ (t : List α) (m : Nat) (a : α) (h : m < t.length),
      ((t.get ⟨m, h⟩) :: t.set m a).Perm (a :: t) := by
  intro t
  induction t with
  | nil => intro m a h; simp at h
  | cons c t' ih =>
    intro m a h
    cases m with
    | zero =>
      simp only [List.get_eq_getElem, List.getElem_cons_zero, List.set_cons_zero]
      exact List.Perm.swap a c t'
    | succ k =>
      have hk : k < t'.length := by simpa using h
      simp only [List.get_eq_getElem, List.getElem_cons_succ, List.set_cons_succ]
      exact (List.Perm.swap c (t'.get ⟨k, hk⟩) (t'.set k a)).trans
        ((List.Perm.cons c (ih k a hk)).trans (List.Perm.swap a c t'))

/-- Exchanging two in-bounds positions by a pair of `set`s permutes the
list. -/
theorem set_set_swap_perm {α : Type} :
    ∀ (l : List α) (i j : Nat) (hi : i < l.length) (hj : j < l.length),
      ((l.set i (l.get ⟨j, hj⟩)).set j (l.get ⟨i, hi⟩)).Perm l := by
  intro l
  induction l with
  | nil => intro i j hi _; simp at hi
  | cons c t ih =>
    intro i j hi hj
    cases i with
    | zero =>
      cases j with
      | zero => simp
      | succ m =>
        have hm : m < t.length := by simpa using hj
        simp only [List.get_eq_getElem, List.getElem_cons_succ, List.getElem_cons_zero,
          List.set_cons_zero, List.set_cons_succ]
        exact cons_set_perm t m c hm
    | succ k =>
      have hk : k < t.length := by simpa using hi
      cases j with
      | zero =>
        simp only [List.get_eq_getElem, List.getElem_cons_succ, List.getElem_cons_zero,
          List.set_cons_zero, List.set_cons_succ]
        exact cons_set_perm t k c hk
      | succ m =>
        have hm : m < t.length := by simpa using hj
        simp only [List.get_eq_getElem, List.getElem_cons_succ, List.set_cons_succ]
        exact List.Perm.cons c (ih k m hk hm)

/-- The JS destructuring swap is always a permutation. -/
theorem swapEntries_perm {α : Type} (l : List α) (i j : Nat) :
    (swapEntries l i j).Perm l := by
  unfold swapEntries
  cases hi : l[i]? with
  | none => cases hj : l[j]? <;> exact List.Perm.refl l
  | some a =>
    cases hj : l[j]? with
    | none => exact List.Perm.refl l
    | some b =>
      obtain ⟨hilt, ha⟩ := List.getElem?_eq_some.mp hi
      obtain ⟨hjlt, hb⟩ := List.getElem?_eq_some.mp hj
      subst ha
      subst hb
      exact set_set_swap_perm l i j hilt hjlt

/-- The whole Fisher–Yates loop is a permutation, for every stream. -/
theorem shuffleAux_perm {α : Type} (g : Nat → Nat) :
    ∀ (i k : Nat) (l : List α), (shuffleAux g k l i).Perm l := by
  intro i
  induction i with
  | zero => intro k l; exact List.Perm.refl l
  | succ i ih =>
    intro k l
    exact (ih (k + 1) (swapEntries l (i + 1) (g k % (i + 2)))).trans
      (swapEntries_perm l (i + 1) (g k % (i + 2)))

/-- `shuffleQuestions` permutes its input, for every stream. -/
theorem shuffleQuestions_perm (questions : List Question) (g : Nat → Nat) :
    (shuffleQuestions questions g).Perm questions := by
  rcases hlen : questions.length with _ | n <;>
    simp only [shuffleQuestions, hlen]
  · exact List.Perm.refl questions
  · exact shuffleAux_perm g n 0 questions

/-- The three buckets of `weightedShuffle` concatenate to a permutation of
the input. -/
theorem bucketize_perm (performance : PerfMap) :
    ∀ qs : List Question,
      ((bucketize performance qs).2.1 ++ (bucketize performance qs).2.2 ++
        (bucketize performance qs).1).Perm qs := by
  intro qs
  induction qs with
  | nil => simp [bucketize]
  | cons q rest ih =>
    rcases hb : bucketize performance rest with ⟨cor, inc, uns⟩
    rw [hb] at ih
    simp only at ih
    rcases hpg : perfGet performance q.id with _ | p
    · simp only [bucketize, hb, hpg]
      have hassoc : inc ++ (q :: uns) ++ cor = inc ++ q :: (uns ++ cor) := by
        simp [List.append_assoc]
      rw [hassoc]
      refine List.perm_middle.trans (List.Perm.cons q ?_)
      simpa [List.append_assoc] using ih
    · rcases hlc : p.lastCorrect with _ | b
      · simp only [bucketize, hb, hpg, hlc]
        have hassoc : inc ++ (q :: uns) ++ cor = inc ++ q :: (uns ++ cor) := by
          simp [List.append_assoc]
        rw [hassoc]
        refine List.perm_middle.trans (List.Perm.cons q ?_)
        simpa [List.append_assoc] using ih
      · cases b with
        | false =>
          simp only [bucketize, hb, hpg, hlc]
          exact List.Perm.cons q ih
        | true =>
          simp only [bucketize, hb, hpg, hlc]
          exact List.perm_middle.trans (List.Perm.cons q ih)

/-- One unfolding step of the first-third loop. -/
theorem firstThirdLoop_succ (r : Nat → Nat) (sInc sUns sCor : List Question)
    (k ii ui ci : Nat) (acc : List Question) (fuel : Nat) :
    firstThirdLoop r sInc sUns sCor k ii ui ci acc (fuel + 1) =
      (if r k % 10 < 5 ∧ ii < sInc.length then
        firstThirdLoop r sInc sUns sCor (k + 1) (ii + 1) ui ci
          (acc ++ [sInc.getD ii defaultQuestion]) fuel
      else if r k % 10 < 8 ∧ ui < sUns.length then
        firstThirdLoop r sInc sUns sCor (k + 1) ii (ui + 1) ci
          (acc ++ [sUns.getD ui defaultQuestion]) fuel
      else if ci < sCor.length then
        firstThirdLoop r sInc sUns sCor (k + 1) ii ui (ci + 1)
          (acc ++ [sCor.getD ci defaultQuestion]) fuel
      else
        firstThirdLoop r sInc sUns sCor (k + 1) ii ui ci acc fuel) := rfl

/-- Loop invariant of the first-third draw: the accumulated output followed
by the unconsumed tails of the three buckets is a permutation of the
starting accumulator followed by the tails at the starting cursors — each
iteration only moves one bucket's head (or nothing) into the accumulator. -/
theorem firstThirdLoop_invariant (r : Nat → Nat) (sInc sUns sCor : List Question) :
    ∀ (fuel k ii ui ci : Nat) (acc : List Question),
      ((firstThirdLoop r sInc sUns sCor k ii ui ci acc fuel).1 ++
          sInc.drop (firstThirdLoop r sInc sUns sCor k ii ui ci acc fuel).2.1 ++
          sUns.drop (firstThirdLoop r sInc sUns sCor k ii ui ci acc fuel).2.2.1 ++
          sCor.drop (firstThirdLoop r sInc sUns sCor k ii ui ci acc fuel).2.2.2).Perm
        (acc ++ sInc.drop ii ++ sUns.drop ui ++ sCor.drop ci) := by
  intro fuel
  induction fuel with
  | zero => intro k ii ui ci acc; exact List.Perm.refl _
  | succ fuel ih =>
    intro k ii ui ci acc
    rw [firstThirdLoop_succ]
    split_ifs with h1 h2 h3
    · refine (ih (k + 1) (ii + 1) ui ci (acc ++ [sInc.getD ii defaultQuestion])).trans ?_
      rw [List.getD_eq_getElem sInc defaultQuestion h1.2, List.drop_eq_getElem_cons h1.2]
      exact List.Perm.of_eq (by simp [List.append_assoc])
    · refine (ih (k + 1) ii (ui + 1) ci (acc ++ [sUns.getD ui defaultQuestion])).trans ?_
      rw [List.getD_eq_getElem sUns defaultQuestion h2.2, List.drop_eq_getElem_cons h2.2]
      simp only [List.append_assoc, List.singleton_append, List.cons_append, List.nil_append]
      exact List.Perm.append_left acc List.perm_middle.symm
    · refine (ih (k + 1) ii ui (ci + 1) (acc ++ [sCor.getD ci defaultQuestion])).trans ?_
      rw [List.getD_eq_getElem sCor defaultQuestion h3, List.drop_eq_getElem_cons h3]
      simp only [List.append_assoc, List.singleton_append, List.cons_append, List.nil_append]
      exact List.Perm.append_left acc (List.perm_middle.symm.trans
        (List.Perm.append_left (sInc.drop ii) List.perm_middle.symm))
    · exact ih (k + 1) ii ui ci acc

/-- `weightedShuffle` permutes its input, for every choice of streams. -/
theorem weightedShuffle_perm (questions : List Question) (performance : PerfMap)
    (g1 g2 g3 r : Nat → Nat) :
    (weightedShuffle questions performance g1 g2 g3 r).Perm questions := by
  unfold weightedShuffle
  have hp := bucketize_perm performance questions
  rcases hb : bucketize performance questions with ⟨cor, inc, uns⟩
  rw [hb] at hp
  simp only at hp ⊢
  rcases hf : firstThirdLoop r (shuffleQuestions inc g1) (shuffleQuestions uns g2)
      (shuffleQuestions cor g3) 0 0 0 0 [] (questions.length / 3) with ⟨res, ii, ui, ci⟩
  have hinv := firstThirdLoop_invariant r (shuffleQuestions inc g1) (shuffleQuestions uns g2)
    (shuffleQuestions cor g3) (questions.length / 3) 0 0 0 0 []
  rw [hf] at hinv
  simp only [List.drop_zero, List.nil_append] at hinv
  exact hinv.trans ((((shuffleQuestions_perm inc g1).append
    (shuffleQuestions_perm uns g2)).append (shuffleQuestions_perm cor g3)).trans hp)

/-- C4: for every question list, every ledger, and every sequence of values
the random source can yield, `shuffleQuestions` and `weightedShuffle` both
return a permutation of their input: the output multiset equals the input
multiset, no question dropped, none duplicated. -/
theorem shuffles_preserve_questions (questions : List Question)
    (performance : PerfMap) (g g1 g2 g3 r : Nat → Nat) :
    (shuffleQuestions questions g).Perm questions ∧
    (weightedShuffle questions performance g1 g2 g3 r).Perm questions :=
  ⟨shuffleQuestions_perm questions g,
    weightedShuffle_perm questions performance g1 g2 g3 r⟩

/-- Witness for C1 at a concrete record, position, timestamp and draw. -/
theorem updatePerformance_spec_witness :
    (updatePerformance (createInitialPerformance "q") false 5 30 9).incorrectCount =
      (createInitialPerformance "q").incorrectCount + 1 := by
  obtain ⟨-, -, -, h⟩ := updatePerformance_spec (createInitialPerformance "q") false 5 30 9
  exact (h rfl).1

/-- Witness for C6 on a concrete bank with an empty ledger. -/
theorem getQuestionsForReview_spec_witness :
    (getQuestionsForReview bank3State.questions []).Sublist bank3State.questions :=
  (getQuestionsForReview_spec bank3State.questions []).2.2

/-- Witness for C7 on a concrete one-record ledger. -/
theorem getPerformanceStats_spec_witness :
    0 ≤ (getPerformanceStats [("q1", createInitialPerformance "q1")]).accuracy ∧
    (getPerformanceStats [("q1", createInitialPerformance "q1")]).accuracy ≤ 100 := by
  obtain ⟨-, h1, h2, -⟩ := getPerformanceStats_spec [("q1", createInitialPerformance "q1")]
  exact ⟨h1, h2⟩
